import Mathlib

/-!
# Verification of the sitechecker crawler / SEO-audit core

Shallow embedding of the crawler, URL utilities, audit aggregation and
monitoring diff logic of the repository (`app/utils/url_utils.py`,
`app/services/crawler/crawler.py`, `app/services/audit/audit_service.py`,
`app/services/monitoring/monitoring_service.py`), together with proofs of the
specification's claims about them.

Modelling conventions:
* Python strings are embedded as `String`/`List Char`; `str.lower` is modelled
  on its ASCII fragment (all inputs of interest are ASCII).
* Python `float` arithmetic in the audit score and the monitoring threshold is
  modelled by exact rational arithmetic (`Rat`); `round` is Python's
  round-half-to-even.
* The standard library's `urlparse`/`urljoin` are modelled on the URL shapes
  the code can actually feed them (scheme-qualified, protocol-relative or
  scheme-less strings; absolute and root-relative references).
* HTML parsing (BeautifulSoup) is external to the repository: a fetched page
  is modelled by the record of extraction results (`Soup`) the crawler reads
  from the parsed document, and the network by an oracle `Web` mapping a URL
  to a fetch outcome.
-/

namespace SiteChecker

/-! ## Basic string helpers -/

/-- Boolean list-prefix test (Python `str.startswith`). -/
def prefixB : List Char → List Char → Bool
  | [], _ => true
  | _ :: _, [] => false
  | a :: as, b :: bs => a == b && prefixB as bs

/-- Boolean substring test (Python `needle in hay`). -/
def containsSub (needle : List Char) : List Char → Bool
  | [] => needle.isEmpty
  | c :: t => prefixB needle (c :: t) || containsSub needle t

/-- Characters terminating the network-location part of a URL. -/
def isStop (c : Char) : Bool := c == '/' || c == '?' || c == '#'

/-- Characters terminating the path part of a URL. -/
def isPStop (c : Char) : Bool := c == '?' || c == '#'

/-- ASCII fragment of Python `str.lower`, one character. -/
def pyLower (c : Char) : Char :=
  if 65 ≤ c.toNat ∧ c.toNat ≤ 90 then Char.ofNat (c.toNat + 32) else c

/-- ASCII fragment of Python `str.lower`. -/
def lowerL (l : List Char) : List Char := l.map pyLower

/-- Python default-whitespace test (ASCII fragment), for `str.strip`. -/
def isSpaceB (c : Char) : Bool :=
  c == ' ' || c == '\t' || c == '\n' || c == '\r' || c == '\x0b' || c == '\x0c'

/-- Python `str.strip()` (ASCII whitespace). -/
def pyStrip (l : List Char) : List Char :=
  ((l.dropWhile isSpaceB).reverse.dropWhile isSpaceB).reverse

/-- `url.startswith(('http://', 'https://'))`. -/
def startsHttpL (l : List Char) : Bool :=
  prefixB "http://".data l || prefixB "https://".data l

/-! ## URL utilities (`app/utils/url_utils.py`) -/

/-- The `netloc` component of `urllib.parse.urlparse`, for the URL shapes the
repository feeds it: a netloc is parsed only after `http://`, `https://` or a
protocol-relative `//` prefix; any other string parses with an empty netloc
(as `urlparse` does for scheme-less strings such as `example.com/x`). -/
def netlocOfData (l : List Char) : List Char :=
  if prefixB "http://".data l then (l.drop 7).takeWhile (fun c => !isStop c)
  else if prefixB "https://".data l then (l.drop 8).takeWhile (fun c => !isStop c)
  else if prefixB "//".data l then (l.drop 2).takeWhile (fun c => !isStop c)
  else []

/-- The netloc normalisation of `normalize_url`: lower-case, then strip one
leading `www.`. -/
def hostNorm (netloc : List Char) : List Char :=
  let netloc2 := lowerL netloc
  if prefixB "www.".data netloc2 then netloc2.drop 4 else netloc2

/-- The path normalisation of `normalize_url`: strip one trailing slash from
a non-root path, then turn an empty path into `/`. -/
def pathNorm (path : List Char) : List Char :=
  let path2 := if path ≠ ['/'] ∧ path.getLast? = some '/' then path.dropLast else path
  if path2 = [] then ['/'] else path2

/-- The directory part of a path: everything up to and including the last
slash. -/
def dirOfPath (p : List Char) : List Char :=
  (p.reverse.dropWhile (fun c => !(c == '/'))).reverse

/-- The final segment of a path: everything after the last slash. -/
def lastSeg (p : List Char) : List Char :=
  (p.reverse.takeWhile (fun c => !(c == '/'))).reverse

/-- `urllib.parse._splitparams` (first component), as `urlparse` applies it
to the path of an `http`/`https` URL: when the path contains a `;`, the part
of the *last* segment from its first `;` on is split off as the `params`
component (`urlparse('https://ex.com/a;b').path == '/a'`); a `;` in an
earlier segment, or a path without `;`, is left alone.  A path containing no
slash is cut at its first `;`. -/
def splitParams (p : List Char) : List Char :=
  if ';' ∈ p then
    if '/' ∈ p then dirOfPath p ++ (lastSeg p).takeWhile (fun c => !(c == ';'))
    else p.takeWhile (fun c => !(c == ';'))
  else p

/-- Shared tail of `normalize_url` after scheme selection: `rest` is the part
of the URL following `scheme://`.  Mirrors the component normalisation in
`url_utils.normalize_url`: the netloc runs to the first `/`, `?` or `#`, the
path to the first `?` or `#` (query and fragment are dropped), `;params` are
split off the last path segment by `urlparse` (the scheme here is always
`http`/`https`, both in `uses_params`) and dropped by the rebuild, and the
URL is rebuilt from the normalised components. -/
def normTail (scheme rest : List Char) : List Char :=
  let netloc := rest.takeWhile (fun c => !isStop c)
  let after := rest.dropWhile (fun c => !isStop c)
  let path := splitParams (after.takeWhile (fun c => !isPStop c))
  scheme ++ "://".data ++ hostNorm netloc ++ pathNorm path

/-- `url_utils.normalize_url` on character lists: empty input maps to empty
output; an input without an `http://`/`https://` prefix first gets `https://`
prepended; then the URL is parsed and rebuilt from scheme, normalised netloc
and normalised path. -/
def normData (l : List Char) : List Char :=
  if l = [] then []
  else
    let u := if startsHttpL l then l else "https://".data ++ l
    if prefixB "http://".data u then normTail "http".data (u.drop 7)
    else normTail "https".data (u.drop 8)

/-- `url_utils.normalize_url`. -/
def normalize_url (s : String) : String := String.mk (normData s.data)

/-- `url_utils.get_domain`: lower-cased netloc with one leading `www.`
stripped. -/
def get_domain (s : String) : List Char :=
  let d := lowerL (netlocOfData s.data)
  if prefixB "www.".data d then d.drop 4 else d

/-- Boolean list-suffix test (Python `str.endswith`). -/
def suffixB (post l : List Char) : Bool := prefixB post.reverse l.reverse

/-- `url_utils.is_internal_url`. -/
def is_internal_url (url : String) (base_domain : List Char) : Bool :=
  if url.data = [] ∨ base_domain = [] then false
  else if !startsHttpL url.data then true
  else
    let d := get_domain url
    d == base_domain || suffixB ('.' :: base_domain) d

/-! ## Data model (`app/schemas/audit.py`) -/

/-- One SEO issue, as the crawler's loosely-typed issue dicts
(`{"type": …, "severity": …, "description": …}`). -/
structure Issue where
  type : String
  severity : String
  description : String
deriving DecidableEq, Repr

/-- One extracted link (`link_data` in `Crawler._extract_links`). -/
structure LinkData where
  url : String
  text : String
  nofollow : Bool
deriving DecidableEq, Repr

/-- `schemas.audit.PageData`, restricted to the fields the modelled code
reads or writes; field defaults are the pydantic defaults. -/
structure PageData where
  url : String
  status_code : Option Int := none
  title : Option String := none
  meta_description : Option String := none
  h1 : Option (List String) := none
  canonical_url : Option String := none
  content_type : Option String := none
  size_bytes : Option Nat := none
  word_count : Option Nat := none
  indexable : Bool := true
  page_score : Option Int := none
  internal_links : List LinkData := []
  external_links : List LinkData := []
  meta_robots : Option String := none
  issues : List Issue := []
deriving DecidableEq, Repr

/-- Python truthiness of an optional string (`None` and `""` are falsy). -/
def truthy : Option String → Bool
  | none => false
  | some s => !(s == "")

/-- An `<a>` element as read off the parsed document: raw `href`, anchor
text, and the `rel` attribute (a token list in BeautifulSoup, absent when
the attribute is missing). -/
structure RawLink where
  href : String
  text : String
  rel : Option (List String) := none
deriving DecidableEq, Repr

/-- Result of parsing one HTML body: the values the crawler's
`_extract_*`/`_count_words` helpers read from the BeautifulSoup document.
HTML parsing itself is external (BeautifulSoup), so it is part of the
oracle. -/
structure Soup where
  title : Option String := none
  meta_description : Option String := none
  h1 : List String := []
  canonical : Option String := none
  robots : Option String := none
  links : List RawLink := []
  word_count : Nat := 0
deriving DecidableEq, Repr

/-- Outcome of one HTTP GET: timeout, another fetch error, or a response
with status, `Content-Type` header, body text and its parse. -/
inductive FetchOutcome where
  | timeout
  | failure (msg : String)
  | response (status : Int) (content_type : String) (html : String) (soup : Soup)
deriving DecidableEq, Repr

/-- The network, as an oracle from URL to fetch outcome (deterministic for
the duration of one run). -/
def Web := String → FetchOutcome

/-! ## Page pipeline (`app/services/crawler/crawler.py`) -/

/-- Scheme of a URL (`urlparse(url).scheme`), for the URL shapes fed to
`urljoin`; empty for scheme-less strings. -/
def schemeOfData (l : List Char) : List Char :=
  if prefixB "http://".data l then "http".data
  else if prefixB "https://".data l then "https".data
  else []

/-- The raw `path` component of `urlsplit` (no `;params` splitting — that is
applied on top of this by `urlparse` via `splitParams`, only for schemes in
`uses_params`), for the URL shapes the repository feeds it: a scheme-less
string without `//` is all path, as in `urlsplit("a/b").path`.  `urljoin`
resolves against this raw path. -/
def pathOfData (l : List Char) : List Char :=
  if prefixB "http://".data l then
    ((l.drop 7).dropWhile (fun c => !isStop c)).takeWhile (fun c => !isPStop c)
  else if prefixB "https://".data l then
    ((l.drop 8).dropWhile (fun c => !isStop c)).takeWhile (fun c => !isPStop c)
  else if prefixB "//".data l then
    ((l.drop 2).dropWhile (fun c => !isStop c)).takeWhile (fun c => !isPStop c)
  else l.takeWhile (fun c => !isPStop c)

/-- `urllib.parse.urljoin`, modelled for the reference shapes arising here:
absolute references are returned as-is, protocol-relative references take the
base scheme, root-relative references replace the base path, and any other
relative reference is resolved against the base directory (dot-segment
removal and query/params merging are outside the model; the modelled pages
only use absolute and root-relative hrefs). -/
def urljoin (base href : String) : String :=
  if startsHttpL href.data then href
  else if prefixB "//".data href.data then
    String.mk (schemeOfData base.data ++ (':' :: href.data))
  else if prefixB "/".data href.data then
    String.mk (schemeOfData base.data ++ "://".data ++ netlocOfData base.data ++ href.data)
  else
    String.mk (schemeOfData base.data ++ "://".data ++ netlocOfData base.data ++
      (let d := dirOfPath (pathOfData base.data); if d = [] then ['/'] else d) ++ href.data)

/-- `Crawler._is_indexable`: not indexable when the robots directives contain
`noindex`, or when a canonical URL is present that differs from both the raw
page URL and its normalisation. -/
def is_indexable (robots canonical : Option String) (url : String) : Bool :=
  if truthy robots ∧ containsSub "noindex".data (lowerL ((robots.getD "").data)) then
    false
  else if truthy canonical ∧ canonical.getD "" ≠ url ∧
      canonical.getD "" ≠ normalize_url url then
    false
  else true

/-- `Crawler._analyze_seo`: the deterministic issue rules on title, meta
description and H1 headings (the link-list parameters are unused, as in the
source). -/
def analyze_seo (title meta_description : Option String)
    (h1_tags : List String) (_internal _external : List LinkData) : List Issue :=
  (if !truthy title then
    [⟨"missing_title", "critical", "La página no tiene una etiqueta de título"⟩]
  else if (title.getD "").length < 10 then
    [⟨"title_too_short", "warning",
      "El título de la página es demasiado corto (menos de 10 caracteres)"⟩]
  else if (title.getD "").length > 60 then
    [⟨"title_too_long", "warning",
      "El título de la página es demasiado largo (más de 60 caracteres)"⟩]
  else []) ++
  (if !truthy meta_description then
    [⟨"missing_meta_description", "warning", "La página no tiene meta descripción"⟩]
  else if (meta_description.getD "").length < 50 then
    [⟨"meta_description_too_short", "notice",
      "La meta descripción es demasiado corta (menos de 50 caracteres)"⟩]
  else if (meta_description.getD "").length > 160 then
    [⟨"meta_description_too_long", "notice",
      "La meta descripción es demasiado larga (más de 160 caracteres)"⟩]
  else []) ++
  (if h1_tags = [] then
    [⟨"missing_h1", "warning", "La página no tiene un encabezado H1"⟩]
  else if h1_tags.length > 1 then
    [⟨"multiple_h1", "warning",
      "La página tiene múltiples encabezados H1 (" ++ toString h1_tags.length ++ ")"⟩]
  else [])

/-- `Crawler._extract_links`: skip empty, fragment-only and `javascript:`
hrefs, resolve against the page URL, normalise, and partition into internal
and external links against the page's raw netloc. -/
def extract_links (links : List RawLink) (base_url : String) :
    List LinkData × List LinkData :=
  links.foldl
    (fun acc a =>
      let href := pyStrip a.href.data
      if href = [] ∨ prefixB "#".data href ∨ prefixB "javascript:".data href then acc
      else
        let full_url := urljoin base_url (String.mk href)
        let full_url := normalize_url full_url
        let link_data : LinkData :=
          ⟨full_url, String.mk (pyStrip a.text.data),
            a.rel.isSome && (a.rel.getD []).contains "nofollow"⟩
        if is_internal_url full_url (netlocOfData base_url.data) then
          (acc.1 ++ [link_data], acc.2)
        else
          (acc.1, acc.2 ++ [link_data]))
    ([], [])

/-- `Crawler._fetch_and_process`: timeout and fetch errors become failure
records with a single critical issue; non-HTML responses become a
non-indexable record with a single `not_html` notice; HTML responses are
analysed in full. -/
def fetch_and_process (web : Web) (url : String) : PageData :=
  match web url with
  | .timeout =>
      { url := url, status_code := some 0, indexable := false,
        issues := [⟨"timeout", "critical",
          "Tiempo de espera agotado al intentar acceder a " ++ url⟩] }
  | .failure msg =>
      { url := url, status_code := some 0, indexable := false,
        issues := [⟨"fetch_error", "critical",
          "Error al obtener la página: " ++ msg⟩] }
  | .response status content_type html soup =>
      if !containsSub "text/html".data (lowerL content_type.data) then
        { url := url, status_code := some status, content_type := some content_type,
          indexable := false,
          issues := [⟨"not_html", "notice",
            "No es una página HTML: " ++ content_type⟩] }
      else
        let links := extract_links soup.links url
        let indexable := is_indexable soup.robots soup.canonical url
        let issues := analyze_seo soup.title soup.meta_description soup.h1 links.1 links.2
        let page_score : Int := 100 - (issues.length * 5)
        { url := url, status_code := some status, title := soup.title,
          meta_description := soup.meta_description, h1 := some soup.h1,
          canonical_url := soup.canonical, content_type := some content_type,
          size_bytes := some html.length, word_count := some soup.word_count,
          indexable := indexable, page_score := some (max 0 page_score),
          internal_links := links.1, external_links := links.2,
          meta_robots := soup.robots, issues := issues }

/-! ## Crawl scheduler (`Crawler.__init__` / `Crawler._crawl_next`)

One state of a crawl run: the `visited_urls` set, the frontier `queue` set,
and the `results` dict (modelled as sets without duplicates, in insertion
order for `results`).  One `Step` is one iteration of the `_crawl_next` loop
body: pop an arbitrary URL from the queue (Python `set.pop` is unordered),
mark it visited, fetch and record it, then enqueue its internal links subject
to the dedup and budget guards.  `asyncio` workers interleave iterations
cooperatively; the mutations of one iteration are modelled as one step.  The
`except` branch of `_crawl_next` (the `crawl_error` record) is unreachable
here because `_fetch_and_process` already catches every exception itself. -/

structure CrawlState where
  visited : List String
  queue : List String
  results : List (String × PageData)
deriving DecidableEq, Repr

/-- The link-enqueueing loop at the end of `_crawl_next`: a discovered link
is normalised and enqueued when it is non-empty, not yet visited, not already
queued, and the combined size of visited set and queue is below the page
budget. -/
def enqueueLinks (maxPages : Nat) (visited : List String)
    (links : List LinkData) (q : List String) : List String :=
  links.foldl
    (fun q link =>
      let nl := normalize_url link.url
      if nl ≠ "" ∧ nl ∉ visited ∧ nl ∉ q ∧ visited.length + q.length < maxPages then
        q.insert nl
      else q)
    q

/-- Effect of one `_crawl_next` iteration that chose `url` from the queue. -/
def crawlStep (web : Web) (maxPages : Nat) (url : String) (s : CrawlState) :
    CrawlState :=
  let pd := fetch_and_process web url
  let visited := s.visited.insert url
  { visited := visited,
    queue := enqueueLinks maxPages visited pd.internal_links (s.queue.erase url),
    results := s.results ++ [(url, pd)] }

/-- The loop guard of `_crawl_next` plus the arbitrary choice of `set.pop`:
a step exists exactly when the queue is non-empty and the visited set is
below the page budget. -/
def Step (web : Web) (maxPages : Nat) (s s' : CrawlState) : Prop :=
  ∃ url, url ∈ s.queue ∧ s.visited.length < maxPages ∧
    s' = crawlStep web maxPages url s

/-- Initial crawler state (`Crawler.__init__`): empty visited set and
results, and the frontier holding the raw, un-normalised seed URL. -/
def initState (start_url : String) : CrawlState :=
  { visited := [], queue := [start_url], results := [] }

/-- Reachability under crawl steps. -/
def Reaches (web : Web) (maxPages : Nat) : CrawlState → CrawlState → Prop :=
  Relation.ReflTransGen (Step web maxPages)

/-- A state on which the `_crawl_next` loop has terminated. -/
def Completed (maxPages : Nat) (s : CrawlState) : Prop :=
  s.queue = [] ∨ ¬ s.visited.length < maxPages

/-! ## Audit aggregation (`AuditService._calculate_site_score`) -/

/-- Python round-half-to-even (`round(x)`) on exact rationals. -/
def pyRound (q : Rat) : Int :=
  let f := q.floor
  let r := q - (f : Rat)
  if r < 1/2 then f
  else if 1/2 < r then f + 1
  else if f % 2 = 0 then f else f + 1

/-- Total number of issues of the given severity across all pages: this is
what the generator expressions
`sum(1 for p in pages for issue in p.issues if issue.get("severity") == s)`
in `_calculate_site_score` count (issue occurrences, not pages). -/
def severity_issue_count (pages : List PageData) (sev : String) : Nat :=
  (pages.map (fun p => (p.issues.filter (fun i => i.severity = sev)).length)).sum

/-- `AuditService._calculate_site_score`, with Python float arithmetic
modelled by exact rationals: 0 for an empty collection or when no page is
indexable; otherwise the average `page_score or 0` over indexable pages,
minus `30 × criticalIssues/totalPages` and `15 × warningIssues/totalPages`,
rounded (half-to-even) and clamped to [0, 100]. -/
def calculate_site_score (pages : List PageData) : Int :=
  if pages = [] then 0
  else
    let indexable_pages := pages.filter (fun p => p.indexable)
    if indexable_pages = [] then 0
    else
      let avg_score : Rat :=
        ((indexable_pages.map (fun p => ((p.page_score.getD 0 : Int) : Rat))).sum) /
          (indexable_pages.length : Rat)
      let critical_penalty : Rat :=
        ((severity_issue_count pages "critical" : Rat) / (pages.length : Rat)) * 30
      let warning_penalty : Rat :=
        ((severity_issue_count pages "warning" : Rat) / (pages.length : Rat)) * 15
      let score := avg_score - critical_penalty - warning_penalty
      max 0 (min 100 (pyRound score))

/-- Number of pages having at least one issue of the given severity. -/
def pages_with_severity (pages : List PageData) (sev : String) : Nat :=
  (pages.filter (fun p => p.issues.any (fun i => i.severity = sev))).length

/-- The site score as the specification's words describe it (for comparison
with `calculate_site_score`): penalties are proportional to the *fraction of
pages having* a critical (resp. warning) issue. -/
def spec_site_score (pages : List PageData) : Int :=
  if pages = [] then 0
  else
    let indexable_pages := pages.filter (fun p => p.indexable)
    if indexable_pages = [] then 0
    else
      let avg_score : Rat :=
        ((indexable_pages.map (fun p => ((p.page_score.getD 0 : Int) : Rat))).sum) /
          (indexable_pages.length : Rat)
      let critical_penalty : Rat :=
        ((pages_with_severity pages "critical" : Rat) / (pages.length : Rat)) * 30
      let warning_penalty : Rat :=
        ((pages_with_severity pages "warning" : Rat) / (pages.length : Rat)) * 15
      max 0 (min 100 (pyRound (avg_score - critical_penalty - warning_penalty)))

/-! ## Monitoring content diff (`MonitoringService._run_check`) -/

/-- Python `round(x, 2)` on exact rationals. -/
def round2 (q : Rat) : Rat := (pyRound (q * 100) : Rat) / 100

/-- The content-change check of `MonitoringService._run_check`: when the
stored baseline word count is truthy (present and non-zero) and the fresh
word count deviates from it by strictly more than 10 %, a content change is
recorded carrying the percentage delta rounded to 2 decimals (float
arithmetic modelled by exact rationals, `0.1` by `1/10`). -/
def detect_content_change (baseline : Option Nat) (fresh : Nat) : Option Rat :=
  match baseline with
  | none => none
  | some b =>
      if b ≠ 0 ∧ ((((fresh : Int) - (b : Int)).natAbs : Rat) > (b : Rat) * (1/10)) then
        some (round2 (((fresh : Rat) - (b : Rat)) / (b : Rat) * 100))
      else none

/-- Run invariant of `_crawl_next`: frontier and visited set are disjoint
duplicate-free sets, the result keys are pairwise distinct visited URLs, one
result per visited URL, and the visited set respects the page budget. -/
def CrawlInv (maxPages : Nat) (s : CrawlState) : Prop :=
  (∀ x ∈ s.queue, x ∉ s.visited) ∧ s.queue.Nodup ∧ s.visited.Nodup ∧
    (s.results.map Prod.fst).Nodup ∧
    (∀ k ∈ s.results.map Prod.fst, k ∈ s.visited) ∧
    s.results.length = s.visited.length ∧ s.visited.length ≤ maxPages

/-- Parse of the page at the un-normalised seed `https://ex.com`, linking to
the same page under an equivalent spelling. -/
def c1Soup : Soup :=
  { title := some "Example Title", links := [⟨"https://ex.com", "home", none⟩] }

/-- Parse of the page at the normalised spelling `https://ex.com/`. -/
def c1SoupB : Soup := { title := some "Example Title" }

/-- A two-page site serving the same page under `https://ex.com` and
`https://ex.com/`. -/
def c1Web : Web := fun u =>
  if u = "https://ex.com" then .response 200 "text/html" "<html>" c1Soup
  else if u = "https://ex.com/" then .response 200 "text/html" "<html>" c1SoupB
  else .timeout

/-- State after the seed has been crawled. -/
def c1S1 : CrawlState := crawlStep c1Web 10 "https://ex.com" (initState "https://ex.com")

/-- State after the discovered normalised link has been crawled. -/
def c1S2 : CrawlState := crawlStep c1Web 10 "https://ex.com/" c1S1

/-- A network where every fetch times out. -/
def c2Web : Web := fun _ => FetchOutcome.timeout

/-- A parse with no SEO issues. -/
def c3Soup : Soup :=
  { title := some "A Fine Page Title",
    meta_description :=
      some "This meta description is long enough to pass the fifty character rule.",
    h1 := ["Heading"] }

/-- A network answering every URL with HTTP 500 and a clean HTML body. -/
def c3Web : Web := fun _ => .response 500 "text/html" "<html></html>" c3Soup

/-- The indexability rule as the specification words it (for comparison with
`is_indexable`): not indexable when robots contains `noindex`, or when a
canonical URL is present whose *normalisation* differs from the
normalisation of the page's own URL. -/
def spec_is_indexable (robots canonical : Option String) (url : String) : Bool :=
  if truthy robots ∧ containsSub "noindex".data (lowerL ((robots.getD "").data)) then
    false
  else if truthy canonical ∧
      normalize_url (canonical.getD "") ≠ normalize_url url then
    false
  else true

/-- Average `page_score or 0` over the indexable pages. -/
def avgIndexableScore (pages : List PageData) : Rat :=
  ((pages.filter (fun p => p.indexable)).map
      (fun p => ((p.page_score.getD 0 : Int) : Rat))).sum /
    ((pages.filter (fun p => p.indexable)).length : Rat)

/-- An indexable page scoring 100 that carries two critical issues. -/
def c6Page : PageData :=
  { url := "https://ex.com/", page_score := some 100, indexable := true,
    issues := [⟨"missing_title", "critical", "sin título"⟩,
      ⟨"broken_link", "critical", "enlace roto"⟩] }

/-- A non-indexable page. -/
def c10Page : PageData := { url := "https://ex.com/", indexable := false }

end SiteChecker

namespace SiteChecker

/-! Evaluation checks of the normaliser against the reference behaviour. -/

example : normalize_url "https://www.www.example.com/" = "https://www.example.com/" := by decide
example : normalize_url "https://example.com/a//" = "https://example.com/a/" := by decide
example : normalize_url "https://example.com:443/" = "https://example.com:443/" := by decide
example : normalize_url "https://ex.com" = "https://ex.com/" := by decide
example : normalize_url "ftp://x.com" = "https://ftp://x.com" := by decide
example : normalize_url "https://WWW.Example.COM/a/?q=1#f" = "https://example.com/a" := by decide
example : normalize_url "https://ex.com/a;b" = "https://ex.com/a" := by decide
example : normalize_url "https://ex.com/a;b/c;d" = "https://ex.com/a;b/c" := by decide
example : normalize_url "https://ex.com/;x" = "https://ex.com/" := by decide
example : normalize_url "https://ex.com;x" = "https://ex.com;x/" := by decide
example : get_domain "https://www.Ex.com/path" = "ex.com".data := by decide
example : is_internal_url "https://ex.com/" "ex.com".data = true := by decide
example : is_internal_url "https://a.ex.com/" "ex.com".data = true := by decide
example : is_internal_url "https://example.com/" "www.example.com".data = false := by decide

example : detect_content_change (some 1000) 950 = none := by with_unfolding_all decide
example : detect_content_change (some 1000) 800 = some (-20) := by with_unfolding_all decide
example : detect_content_change (some 1000) 1100 = none := by with_unfolding_all decide
example : detect_content_change (some 1000) 1101 = some (101/10) := by with_unfolding_all decide
example : pyRound (1/2) = 0 := by with_unfolding_all decide
example : pyRound (5/2) = 2 := by with_unfolding_all decide
example : pyRound (-5/2) = -2 := by with_unfolding_all decide
example : pyRound (141/10) = 14 := by with_unfolding_all decide

/-! ## Helper lemmas: prefixes, takeWhile/dropWhile, lower-casing -/

lemma prefixB_append_self (a r : List Char) : prefixB a (a ++ r) = true := by
  induction a with
  | nil => rfl
  | cons x xs ih => simp [prefixB, ih]

lemma prefixB_iff {a l : List Char} : prefixB a l = true ↔ a <+: l := by
  induction a generalizing l with
  | nil => simp [prefixB]
  | cons x xs ih =>
    cases l with
    | nil => simp [prefixB]
    | cons y ys => simp [prefixB, List.cons_prefix_cons, ih, And.comm]

lemma takeWhile_append_all {p : Char → Bool} {l1 : List Char} (l2 : List Char)
    (h : ∀ c ∈ l1, p c = true) :
    (l1 ++ l2).takeWhile p = l1 ++ l2.takeWhile p := by
  induction l1 with
  | nil => rfl
  | cons a t ih =>
    simp only [List.cons_append, List.takeWhile_cons,
      h a (List.mem_cons_self a t), if_true]
    rw [ih fun c hc => h c (List.mem_cons_of_mem a hc)]

lemma dropWhile_append_all {p : Char → Bool} {l1 : List Char} (l2 : List Char)
    (h : ∀ c ∈ l1, p c = true) :
    (l1 ++ l2).dropWhile p = l2.dropWhile p := by
  induction l1 with
  | nil => rfl
  | cons a t ih =>
    simp only [List.cons_append, List.dropWhile_cons,
      h a (List.mem_cons_self a t), if_true]
    exact ih fun c hc => h c (List.mem_cons_of_mem a hc)

lemma mem_takeWhile_pred {p : Char → Bool} :
    ∀ {l : List Char} {c : Char}, c ∈ l.takeWhile p → p c = true := by
  intro l
  induction l with
  | nil => intro c h; simp [List.takeWhile] at h
  | cons a t ih =>
    intro c h
    rw [List.takeWhile_cons] at h
    by_cases hp : p a = true
    · rw [if_pos hp] at h
      rcases List.mem_cons.mp h with rfl | h2
      · exact hp
      · exact ih h2
    · rw [if_neg hp] at h
      simp at h

lemma dropWhile_shape (p : Char → Bool) (l : List Char) :
    l.dropWhile p = [] ∨ ∃ c t, l.dropWhile p = c :: t ∧ p c = false := by
  induction l with
  | nil => exact Or.inl rfl
  | cons a t ih =>
    rw [List.dropWhile_cons]
    by_cases hp : p a = true
    · rw [if_pos hp]; exact ih
    · rw [if_neg hp]
      exact Or.inr ⟨a, t, rfl, by simpa using hp⟩

lemma mem_of_mem_takeWhile {p : Char → Bool} :
    ∀ {l : List Char} {c : Char}, c ∈ l.takeWhile p → c ∈ l := by
  intro l
  induction l with
  | nil => intro c h; simp [List.takeWhile] at h
  | cons a t ih =>
    intro c h
    rw [List.takeWhile_cons] at h
    by_cases hp : p a = true
    · rw [if_pos hp] at h
      rcases List.mem_cons.mp h with rfl | h2
      · exact List.mem_cons_self _ _
      · exact List.mem_cons_of_mem a (ih h2)
    · rw [if_neg hp] at h
      simp at h

lemma dirOfPath_prefix (p : List Char) : dirOfPath p <+: p := by
  rw [dirOfPath, ← List.reverse_suffix, List.reverse_reverse]
  exact List.dropWhile_suffix _

lemma dirOfPath_ne_nil {p : List Char} (h : '/' ∈ p) : dirOfPath p ≠ [] := by
  rw [dirOfPath]
  intro he
  rw [List.reverse_eq_nil_iff, List.dropWhile_eq_nil_iff] at he
  have := he '/' (List.mem_reverse.mpr h)
  simp at this

lemma mem_of_mem_dirOfPath {p : List Char} {c : Char} (h : c ∈ dirOfPath p) :
    c ∈ p := by
  rcases dirOfPath_prefix p with ⟨s, hs⟩
  rw [← hs]
  exact List.mem_append_left _ h

lemma mem_of_mem_lastSeg {p : List Char} {c : Char} (h : c ∈ lastSeg p) :
    c ∈ p := by
  rw [lastSeg, List.mem_reverse] at h
  exact List.mem_reverse.mp (mem_of_mem_takeWhile h)

lemma splitParams_sub {p : List Char} : ∀ c ∈ splitParams p, c ∈ p := by
  intro c hc
  rw [splitParams] at hc
  by_cases h1 : ';' ∈ p
  · rw [if_pos h1] at hc
    by_cases h2 : '/' ∈ p
    · rw [if_pos h2] at hc
      rcases List.mem_append.mp hc with hc | hc
      · exact mem_of_mem_dirOfPath hc
      · exact mem_of_mem_lastSeg (mem_of_mem_takeWhile hc)
    · rw [if_neg h2] at hc
      exact mem_of_mem_takeWhile hc
  · rw [if_neg h1] at hc
    exact hc

lemma splitParams_head {p : List Char} (h : p = [] ∨ ∃ t, p = '/' :: t) :
    splitParams p = [] ∨ ∃ t, splitParams p = '/' :: t := by
  rcases h with rfl | ⟨t, rfl⟩
  · left
    rfl
  · rw [splitParams]
    by_cases h1 : ';' ∈ '/' :: t
    · rw [if_pos h1, if_pos (List.mem_cons_self '/' t)]
      right
      have hne := dirOfPath_ne_nil (p := '/' :: t) (List.mem_cons_self '/' t)
      rcases hdp : dirOfPath ('/' :: t) with _ | ⟨d, ds⟩
      · exact absurd hdp hne
      · rcases dirOfPath_prefix ('/' :: t) with ⟨s, hs⟩
        rw [hdp, List.cons_append] at hs
        have hd : d = '/' := (List.cons.injEq _ _ _ _).mp hs |>.1
        subst hd
        exact ⟨ds ++ (lastSeg ('/' :: t)).takeWhile (fun c => !(c == ';')), rfl⟩
    · rw [if_neg h1]
      exact Or.inr ⟨t, rfl⟩

lemma char_beq_false {a b : Char} (h : a.toNat ≠ b.toNat) : (a == b) = false :=
  beq_eq_false_iff_ne.mpr fun e => h (by rw [e])

lemma ofNat_add32_toNat (n : Nat) (h1 : 65 ≤ n) (h2 : n ≤ 90) :
    (Char.ofNat (n + 32)).toNat = n + 32 := by
  interval_cases n <;> decide

lemma pyLower_toNat {c : Char} (h : 65 ≤ c.toNat ∧ c.toNat ≤ 90) :
    (pyLower c).toNat = c.toNat + 32 := by
  rw [pyLower, if_pos h]
  exact ofNat_add32_toNat c.toNat h.1 h.2

lemma pyLower_idem (c : Char) : pyLower (pyLower c) = pyLower c := by
  by_cases h : 65 ≤ c.toNat ∧ c.toNat ≤ 90
  · have h2 := pyLower_toNat h
    have hn : ¬(65 ≤ (pyLower c).toNat ∧ (pyLower c).toNat ≤ 90) := by
      rw [h2]; omega
    rw [pyLower, if_neg hn]
  · have hc : pyLower c = c := by rw [pyLower, if_neg h]
    rw [hc, hc]

lemma isStop_toNat_false {c : Char} (h47 : c.toNat ≠ 47) (h63 : c.toNat ≠ 63)
    (h35 : c.toNat ≠ 35) : isStop c = false := by
  rw [isStop]
  rw [char_beq_false (b := '/') (by simpa using h47),
    char_beq_false (b := '?') (by simpa using h63),
    char_beq_false (b := '#') (by simpa using h35)]
  rfl

lemma isStop_true_toNat {c : Char} (h : isStop c = true) :
    c.toNat = 47 ∨ c.toNat = 63 ∨ c.toNat = 35 := by
  by_contra hc
  push_neg at hc
  rw [isStop_toNat_false hc.1 hc.2.1 hc.2.2] at h
  cases h

lemma isStop_pyLower (c : Char) : isStop (pyLower c) = isStop c := by
  by_cases h : 65 ≤ c.toNat ∧ c.toNat ≤ 90
  · have h2 := pyLower_toNat h
    rw [isStop_toNat_false (by omega) (by omega) (by omega),
      isStop_toNat_false (c := c) (by omega) (by omega) (by omega)]
  · rw [pyLower, if_neg h]

lemma lowerL_idem (l : List Char) : lowerL (lowerL l) = lowerL l := by
  simp only [lowerL, List.map_map]
  exact List.map_congr_left fun c _ => by
    simp only [Function.comp_apply, pyLower_idem]

lemma mem_lowerL_no_stop {l : List Char} (h : ∀ c ∈ l, isStop c = false) :
    ∀ c ∈ lowerL l, isStop c = false := by
  intro c hc
  rcases List.mem_map.mp hc with ⟨a, ha, rfl⟩
  rw [isStop_pyLower]
  exact h a ha

/-! ## Structural lemmas on the normaliser components -/

lemma hostNorm_no_stop {l : List Char} (h : ∀ c ∈ l, isStop c = false) :
    ∀ c ∈ hostNorm l, isStop c = false := by
  intro c hc
  rw [hostNorm] at hc
  by_cases hp : prefixB "www.".data (lowerL l) = true
  · rw [if_pos hp] at hc
    exact mem_lowerL_no_stop h c (List.mem_of_mem_drop hc)
  · rw [if_neg hp] at hc
    exact mem_lowerL_no_stop h c hc

lemma lowerL_hostNorm (l : List Char) : lowerL (hostNorm l) = hostNorm l := by
  rw [hostNorm]
  by_cases hp : prefixB "www.".data (lowerL l) = true
  · rw [if_pos hp]
    show lowerL ((lowerL l).drop 4) = (lowerL l).drop 4
    simp only [lowerL, ← List.map_drop]
    have := lowerL_idem (l.drop 4)
    simpa [lowerL, List.map_drop] using this
  · rw [if_neg hp]
    exact lowerL_idem l

lemma hostNorm_idem {l : List Char}
    (h : prefixB "www.".data (hostNorm l) = false) :
    hostNorm (hostNorm l) = hostNorm l := by
  conv_lhs => rw [hostNorm]
  rw [lowerL_hostNorm, if_neg (by rw [h]; exact fun e => nomatch e)]

lemma pathNorm_ne_nil (p : List Char) : pathNorm p ≠ [] := by
  rw [pathNorm]
  by_cases h : (if p ≠ ['/'] ∧ p.getLast? = some '/' then p.dropLast else p) = []
  · rw [if_pos h]; exact fun e => nomatch e
  · rw [if_neg h]; exact h

lemma pathNorm_head {p : List Char} (h : p = [] ∨ ∃ t, p = '/' :: t) :
    ∃ t, pathNorm p = '/' :: t := by
  rcases h with rfl | ⟨t, rfl⟩
  · exact ⟨[], rfl⟩
  · rw [pathNorm]
    by_cases hc : ('/' :: t ≠ ['/'] ∧ ('/' :: t).getLast? = some '/')
    · rw [if_pos hc]
      have ht : t ≠ [] := by
        intro e; exact hc.1 (by rw [e])
      cases t with
      | nil => exact absurd rfl ht
      | cons b u =>
        rw [List.dropLast_cons₂]
        rw [if_neg (by simp)]
        exact ⟨_, rfl⟩
    · rw [if_neg hc, if_neg (by simp)]
      exact ⟨t, rfl⟩

lemma pathNorm_no_pstop {p : List Char} (h : ∀ c ∈ p, isPStop c = false) :
    ∀ c ∈ pathNorm p, isPStop c = false := by
  intro c hc
  rw [pathNorm] at hc
  by_cases h1 : (p ≠ ['/'] ∧ p.getLast? = some '/')
  · rw [if_pos h1] at hc
    by_cases h2 : p.dropLast = []
    · rw [if_pos h2] at hc
      rcases List.mem_singleton.mp hc with rfl
      rfl
    · rw [if_neg h2] at hc
      exact h c (List.dropLast_subset p hc)
  · rw [if_neg h1] at hc
    by_cases h2 : p = []
    · rw [if_pos h2] at hc
      rcases List.mem_singleton.mp hc with rfl
      rfl
    · rw [if_neg h2] at hc
      exact h c hc

lemma pathNorm_idem {p : List Char}
    (h : pathNorm p = ['/'] ∨ (pathNorm p).getLast? ≠ some '/') :
    pathNorm (pathNorm p) = pathNorm p := by
  conv_lhs => rw [pathNorm]
  have hcond : ¬(pathNorm p ≠ ['/'] ∧ (pathNorm p).getLast? = some '/') := by
    rcases h with h | h
    · intro hc; exact hc.1 h
    · intro hc; exact h hc.2
  rw [if_neg hcond, if_neg (pathNorm_ne_nil p)]

/-! ## Characterisation of `normalize_url` on decomposed URLs -/

lemma normTail_split (scheme host path tail : List Char)
    (hh : ∀ c ∈ host, isStop c = false)
    (hp : path = [] ∨ ∃ t, path = '/' :: t)
    (hp2 : ∀ c ∈ path, isPStop c = false)
    (ht : tail = [] ∨ (∃ t, tail = '?' :: t) ∨ (∃ t, tail = '#' :: t)) :
    normTail scheme (host ++ (path ++ tail)) =
      scheme ++ "://".data ++ hostNorm host ++ pathNorm (splitParams path) := by
  have hh' : ∀ c ∈ host, (fun c => !isStop c) c = true := by
    intro c hc; simp [hh c hc]
  have h1 : (host ++ (path ++ tail)).takeWhile (fun c => !isStop c) = host := by
    rw [takeWhile_append_all _ hh']
    have h0 : (path ++ tail).takeWhile (fun c => !isStop c) = [] := by
      rcases hp with rfl | ⟨t, rfl⟩
      · rw [List.nil_append]
        rcases ht with rfl | ⟨t, rfl⟩ | ⟨t, rfl⟩
        · rfl
        · rw [List.takeWhile_cons, if_neg (by decide)]
        · rw [List.takeWhile_cons, if_neg (by decide)]
      · rw [List.cons_append, List.takeWhile_cons, if_neg (by decide)]
    rw [h0, List.append_nil]
  have h2 : (host ++ (path ++ tail)).dropWhile (fun c => !isStop c) = path ++ tail := by
    rw [dropWhile_append_all _ hh']
    rcases hp with rfl | ⟨t, rfl⟩
    · rw [List.nil_append]
      rcases ht with rfl | ⟨t, rfl⟩ | ⟨t, rfl⟩
      · rfl
      · rw [List.dropWhile_cons, if_neg (by decide)]
      · rw [List.dropWhile_cons, if_neg (by decide)]
    · rw [List.cons_append, List.dropWhile_cons, if_neg (by decide)]
  have h3 : (path ++ tail).takeWhile (fun c => !isPStop c) = path := by
    have hp2' : ∀ c ∈ path, (fun c => !isPStop c) c = true := by
      intro c hc; simp [hp2 c hc]
    rw [takeWhile_append_all _ hp2']
    have h0 : tail.takeWhile (fun c => !isPStop c) = [] := by
      rcases ht with rfl | ⟨t, rfl⟩ | ⟨t, rfl⟩
      · rfl
      · rw [List.takeWhile_cons, if_neg (by decide)]
      · rw [List.takeWhile_cons, if_neg (by decide)]
    rw [h0, List.append_nil]
  show scheme ++ "://".data ++
      hostNorm ((host ++ (path ++ tail)).takeWhile (fun c => !isStop c)) ++
      pathNorm (splitParams
        (((host ++ (path ++ tail)).dropWhile (fun c => !isStop c)).takeWhile
          (fun c => !isPStop c))) =
    scheme ++ "://".data ++ hostNorm host ++ pathNorm (splitParams path)
  rw [h1, h2, h3]

lemma normData_http (rest : List Char) :
    normData ("http://".data ++ rest) = normTail "http".data rest := by
  have hne : "http://".data ++ rest ≠ [] := by
    intro h
    exact absurd (List.append_eq_nil.mp h).1 (by decide)
  have hpre : prefixB "http://".data ("http://".data ++ rest) = true :=
    prefixB_append_self _ _
  have hs : startsHttpL ("http://".data ++ rest) = true := by
    rw [startsHttpL, hpre]
    rfl
  simp only [normData, if_neg hne, hs, if_true, hpre]
  congr 1

lemma normData_https (rest : List Char) :
    normData ("https://".data ++ rest) = normTail "https".data rest := by
  have hne : "https://".data ++ rest ≠ [] := by
    intro h
    exact absurd (List.append_eq_nil.mp h).1 (by decide)
  have hpre0 : prefixB "http://".data ("https://".data ++ rest) = false := by
    rfl
  have hpre : prefixB "https://".data ("https://".data ++ rest) = true :=
    prefixB_append_self _ _
  have hs : startsHttpL ("https://".data ++ rest) = true := by
    rw [startsHttpL, hpre0, hpre]
    rfl
  simp only [normData, if_neg hne, hs, if_true, hpre0, Bool.false_eq_true, if_false]
  congr 1

lemma normData_noscheme (l : List Char) (h0 : l ≠ []) (h : startsHttpL l = false) :
    normData l = normTail "https".data l := by
  have hpre0 : prefixB "http://".data ("https://".data ++ l) = false := by
    rfl
  simp only [normData, if_neg h0, h, Bool.false_eq_true, if_false, hpre0]
  congr 1

lemma takeWhile_all {p : Char → Bool} {l : List Char} (h : ∀ c ∈ l, p c = true) :
    l.takeWhile p = l := by
  have h2 : (l ++ []).takeWhile p = l ++ [].takeWhile p := takeWhile_append_all [] h
  simpa using h2

lemma netloc_of_http (X : List Char) :
    netlocOfData ("http://".data ++ X) = X.takeWhile (fun c => !isStop c) := by
  simp only [netlocOfData, prefixB_append_self, if_true]
  congr 1

lemma netloc_of_https (X : List Char) :
    netlocOfData ("https://".data ++ X) = X.takeWhile (fun c => !isStop c) := by
  have hpre0 : prefixB "http://".data ("https://".data ++ X) = false := by rfl
  simp only [netlocOfData, hpre0, Bool.false_eq_true, if_false,
    prefixB_append_self, if_true]
  congr 1

lemma path_of_http (X : List Char) :
    pathOfData ("http://".data ++ X) =
      (X.dropWhile (fun c => !isStop c)).takeWhile (fun c => !isPStop c) := by
  simp only [pathOfData, prefixB_append_self, if_true]
  congr 2

lemma path_of_https (X : List Char) :
    pathOfData ("https://".data ++ X) =
      (X.dropWhile (fun c => !isStop c)).takeWhile (fun c => !isPStop c) := by
  have hpre0 : prefixB "http://".data ("https://".data ++ X) = false := by rfl
  simp only [pathOfData, hpre0, Bool.false_eq_true, if_false,
    prefixB_append_self, if_true]
  congr 2

lemma split_takeWhile_HP {H P : List Char} (hH : ∀ c ∈ H, isStop c = false)
    (hPhead : ∃ t, P = '/' :: t) :
    (H ++ P).takeWhile (fun c => !isStop c) = H := by
  rcases hPhead with ⟨t, rfl⟩
  rw [takeWhile_append_all _ (fun c hc => by simp [hH c hc])]
  rw [List.takeWhile_cons, if_neg (by decide), List.append_nil]

lemma split_dropWhile_HP {H P : List Char} (hH : ∀ c ∈ H, isStop c = false)
    (hPhead : ∃ t, P = '/' :: t) :
    (H ++ P).dropWhile (fun c => !isStop c) = P := by
  rcases hPhead with ⟨t, rfl⟩
  rw [dropWhile_append_all _ (fun c hc => by simp [hH c hc])]
  rw [List.dropWhile_cons, if_neg (by decide)]

lemma isStop_true_eq {c : Char} (h : isStop c = true) :
    c = '/' ∨ c = '?' ∨ c = '#' := by
  simp only [isStop, Bool.or_eq_true, beq_iff_eq] at h
  tauto

lemma parsed_path_shape (rest : List Char) :
    (rest.dropWhile (fun c => !isStop c)).takeWhile (fun c => !isPStop c) = [] ∨
      ∃ t, (rest.dropWhile (fun c => !isStop c)).takeWhile (fun c => !isPStop c) =
        '/' :: t := by
  rcases dropWhile_shape (fun c => !isStop c) rest with h | ⟨c, t, h, hc⟩
  · rw [h]; exact Or.inl rfl
  · rw [h]
    have hstop : isStop c = true := by
      by_contra hs
      rw [Bool.not_eq_true] at hs
      rw [hs] at hc
      cases hc
    rcases isStop_true_eq hstop with rfl | rfl | rfl
    · rw [List.takeWhile_cons, if_pos (by decide)]
      exact Or.inr ⟨_, rfl⟩
    · rw [List.takeWhile_cons, if_neg (by decide)]
      exact Or.inl rfl
    · rw [List.takeWhile_cons, if_neg (by decide)]
      exact Or.inl rfl

lemma normTail_fixed_http (rest : List Char)
    (hw : prefixB "www.".data (netlocOfData (normTail "http".data rest)) = false)
    (hp : splitParams (pathOfData (normTail "http".data rest)) =
      pathOfData (normTail "http".data rest))
    (hs : pathOfData (normTail "http".data rest) = ['/'] ∨
      (pathOfData (normTail "http".data rest)).getLast? ≠ some '/') :
    normData (normTail "http".data rest) = normTail "http".data rest := by
  have hH : ∀ c ∈ hostNorm (rest.takeWhile (fun c => !isStop c)), isStop c = false :=
    hostNorm_no_stop fun c hc => by simpa using mem_takeWhile_pred hc
  have hPhead : ∃ t,
      pathNorm (splitParams
        ((rest.dropWhile (fun c => !isStop c)).takeWhile (fun c => !isPStop c))) =
        '/' :: t :=
    pathNorm_head (splitParams_head (parsed_path_shape rest))
  have hP2 : ∀ c ∈
      pathNorm (splitParams
        ((rest.dropWhile (fun c => !isStop c)).takeWhile (fun c => !isPStop c))),
      isPStop c = false :=
    pathNorm_no_pstop fun c hc => by
      simpa using mem_takeWhile_pred (splitParams_sub c hc)
  have hOut : normTail "http".data rest =
      "http://".data ++
        (hostNorm (rest.takeWhile (fun c => !isStop c)) ++
          pathNorm (splitParams
            ((rest.dropWhile (fun c => !isStop c)).takeWhile
              (fun c => !isPStop c)))) := rfl
  rw [hOut] at hw hp hs ⊢
  rw [netloc_of_http, split_takeWhile_HP hH hPhead] at hw
  rw [path_of_http, split_dropWhile_HP hH hPhead,
    takeWhile_all (fun c hc => by simp [hP2 c hc])] at hp hs
  rw [normData_http]
  rw [show (hostNorm (rest.takeWhile (fun c => !isStop c)) ++
      pathNorm (splitParams
        ((rest.dropWhile (fun c => !isStop c)).takeWhile (fun c => !isPStop c)))) =
    (hostNorm (rest.takeWhile (fun c => !isStop c)) ++
      (pathNorm (splitParams
        ((rest.dropWhile (fun c => !isStop c)).takeWhile (fun c => !isPStop c))) ++
        [])) from by rw [List.append_nil]]
  rw [normTail_split _ _ _ _ hH (Or.inr hPhead) hP2 (Or.inl rfl)]
  rw [hostNorm_idem hw, hp, pathNorm_idem hs]
  rw [List.append_nil]
  rfl

lemma normTail_fixed_https (rest : List Char)
    (hw : prefixB "www.".data (netlocOfData (normTail "https".data rest)) = false)
    (hp : splitParams (pathOfData (normTail "https".data rest)) =
      pathOfData (normTail "https".data rest))
    (hs : pathOfData (normTail "https".data rest) = ['/'] ∨
      (pathOfData (normTail "https".data rest)).getLast? ≠ some '/') :
    normData (normTail "https".data rest) = normTail "https".data rest := by
  have hH : ∀ c ∈ hostNorm (rest.takeWhile (fun c => !isStop c)), isStop c = false :=
    hostNorm_no_stop fun c hc => by simpa using mem_takeWhile_pred hc
  have hPhead : ∃ t,
      pathNorm (splitParams
        ((rest.dropWhile (fun c => !isStop c)).takeWhile (fun c => !isPStop c))) =
        '/' :: t :=
    pathNorm_head (splitParams_head (parsed_path_shape rest))
  have hP2 : ∀ c ∈
      pathNorm (splitParams
        ((rest.dropWhile (fun c => !isStop c)).takeWhile (fun c => !isPStop c))),
      isPStop c = false :=
    pathNorm_no_pstop fun c hc => by
      simpa using mem_takeWhile_pred (splitParams_sub c hc)
  have hOut : normTail "https".data rest =
      "https://".data ++
        (hostNorm (rest.takeWhile (fun c => !isStop c)) ++
          pathNorm (splitParams
            ((rest.dropWhile (fun c => !isStop c)).takeWhile
              (fun c => !isPStop c)))) := rfl
  rw [hOut] at hw hp hs ⊢
  rw [netloc_of_https, split_takeWhile_HP hH hPhead] at hw
  rw [path_of_https, split_dropWhile_HP hH hPhead,
    takeWhile_all (fun c hc => by simp [hP2 c hc])] at hp hs
  rw [normData_https]
  rw [show (hostNorm (rest.takeWhile (fun c => !isStop c)) ++
      pathNorm (splitParams
        ((rest.dropWhile (fun c => !isStop c)).takeWhile (fun c => !isPStop c)))) =
    (hostNorm (rest.takeWhile (fun c => !isStop c)) ++
      (pathNorm (splitParams
        ((rest.dropWhile (fun c => !isStop c)).takeWhile (fun c => !isPStop c))) ++
        [])) from by rw [List.append_nil]]
  rw [normTail_split _ _ _ _ hH (Or.inr hPhead) hP2 (Or.inl rfl)]
  rw [hostNorm_idem hw, hp, pathNorm_idem hs]
  rw [List.append_nil]
  rfl

lemma normData_idem (l : List Char)
    (hw : prefixB "www.".data (netlocOfData (normData l)) = false)
    (hp : splitParams (pathOfData (normData l)) = pathOfData (normData l))
    (hs : pathOfData (normData l) = ['/'] ∨
      (pathOfData (normData l)).getLast? ≠ some '/') :
    normData (normData l) = normData l := by
  by_cases h0 : l = []
  · subst h0; rfl
  by_cases hA : prefixB "http://".data l = true
  · obtain ⟨rest, rfl⟩ : ∃ rest, l = "http://".data ++ rest := by
      rcases prefixB_iff.mp hA with ⟨t, ht⟩
      exact ⟨t, ht.symm⟩
    rw [normData_http] at hw hp hs ⊢
    exact normTail_fixed_http rest hw hp hs
  by_cases hB : prefixB "https://".data l = true
  · obtain ⟨rest, rfl⟩ : ∃ rest, l = "https://".data ++ rest := by
      rcases prefixB_iff.mp hB with ⟨t, ht⟩
      exact ⟨t, ht.symm⟩
    rw [normData_https] at hw hp hs ⊢
    exact normTail_fixed_https rest hw hp hs
  · have hs0 : startsHttpL l = false := by
      rw [startsHttpL, Bool.not_eq_true] at *
      rw [hA, hB]
      rfl
    rw [normData_noscheme l h0 hs0] at hw hp hs ⊢
    exact normTail_fixed_https l hw hp hs

/-! ## Crawl-scheduler invariants -/

lemma enqueueLinks_preserves (maxP : Nat) (visited : List String)
    (links : List LinkData) :
    ∀ q : List String, (∀ x ∈ q, x ∉ visited) → q.Nodup →
      (∀ x ∈ enqueueLinks maxP visited links q, x ∉ visited) ∧
        (enqueueLinks maxP visited links q).Nodup := by
  induction links with
  | nil => intro q h1 h2; exact ⟨h1, h2⟩
  | cons a t ih =>
    intro q h1 h2
    simp only [enqueueLinks, List.foldl_cons] at ih ⊢
    by_cases hc : normalize_url a.url ≠ "" ∧ normalize_url a.url ∉ visited ∧
        normalize_url a.url ∉ q ∧ visited.length + q.length < maxP
    · rw [if_pos hc]
      refine ih _ ?_ (h2.insert)
      intro x hx
      rcases List.mem_insert_iff.mp hx with rfl | hx2
      · exact hc.2.1
      · exact h1 x hx2
    · rw [if_neg hc]
      exact ih q h1 h2

lemma crawlStep_inv {web : Web} {maxP : Nat} {s : CrawlState} {url : String}
    (hInv : CrawlInv maxP s) (hmem : url ∈ s.queue)
    (hlt : s.visited.length < maxP) :
    CrawlInv maxP (crawlStep web maxP url s) := by
  obtain ⟨hdisj, hqnd, hvnd, hknd, hksub, hlen, _⟩ := hInv
  have hnv : url ∉ s.visited := hdisj url hmem
  have hins : s.visited.insert url = url :: s.visited := List.insert_of_not_mem hnv
  have hq0 : ∀ x ∈ s.queue.erase url, x ∉ s.visited.insert url := by
    intro x hx
    rcases (hqnd.mem_erase_iff).mp hx with ⟨hne, hq⟩
    rw [hins, List.mem_cons]
    push_neg
    exact ⟨hne, hdisj x hq⟩
  have hq0nd : (s.queue.erase url).Nodup := hqnd.erase url
  have henq := enqueueLinks_preserves maxP (s.visited.insert url)
    (fetch_and_process web url).internal_links (s.queue.erase url) hq0 hq0nd
  refine ⟨henq.1, henq.2, ?_, ?_, ?_, ?_, ?_⟩
  · show (s.visited.insert url).Nodup
    rw [hins, List.nodup_cons]
    exact ⟨hnv, hvnd⟩
  · show ((s.results ++ [(url, fetch_and_process web url)]).map Prod.fst).Nodup
    rw [List.map_append, List.nodup_append]
    refine ⟨hknd, List.nodup_singleton _, ?_⟩
    intro k hk hk1
    rcases List.mem_singleton.mp hk1 with rfl
    exact hnv (hksub _ hk)
  · show ∀ k ∈ (s.results ++ [(url, fetch_and_process web url)]).map Prod.fst,
      k ∈ s.visited.insert url
    intro k hk
    rw [List.map_append] at hk
    rcases List.mem_append.mp hk with hk | hk
    · rw [hins, List.mem_cons]
      exact Or.inr (hksub _ hk)
    · rcases List.mem_singleton.mp hk with rfl
      exact List.mem_insert_self _ _
  · show (s.results ++ [(url, fetch_and_process web url)]).length =
      (s.visited.insert url).length
    rw [List.length_append, hins, List.length_cons, hlen]
    simp
  · show (s.visited.insert url).length ≤ maxP
    rw [hins, List.length_cons]
    omega

lemma initState_inv (maxP : Nat) (u : String) : CrawlInv maxP (initState u) := by
  refine ⟨?_, ?_, ?_, ?_, ?_, rfl, Nat.zero_le _⟩ <;> simp [initState]

lemma reaches_inv {web : Web} {maxP : Nat} {s s' : CrawlState}
    (h : Reaches web maxP s s') (hInv : CrawlInv maxP s) : CrawlInv maxP s' := by
  induction h with
  | refl => exact hInv
  | tail _ hstep ih =>
    rcases hstep with ⟨url, hm, hl, rfl⟩
    exact crawlStep_inv ih hm hl

/-! ## Claim C1: uniqueness of result keys -/

/-- C1, counterexample: a completed two-step crawl run from the seed
`https://ex.com` whose output PageRecord collection holds two distinct keys,
`https://ex.com` (the raw seed, enqueued without normalisation) and
`https://ex.com/`, that normalise to the same URL — so a normalised URL
appears more than once and the seed is not compared under the same
normalisation as discovered links. -/
theorem crawl_normalized_key_duplicate_cex :
    Step c1Web 10 (initState "https://ex.com") c1S1 ∧ Step c1Web 10 c1S1 c1S2 ∧
      Completed 10 c1S2 ∧
      c1S2.results.map Prod.fst = ["https://ex.com", "https://ex.com/"] ∧
      normalize_url "https://ex.com" = normalize_url "https://ex.com/" ∧
      "https://ex.com" ≠ "https://ex.com/" :=
  ⟨⟨"https://ex.com", by decide, by decide, rfl⟩,
    ⟨"https://ex.com/", by decide, by decide, rfl⟩,
    Or.inl (by decide), by decide, by decide, by decide⟩

/-- C1, amended: in every reachable crawl state the output PageRecord
collection has pairwise-distinct *URL-string* keys (no URL is recorded
twice); per-normalised-URL uniqueness fails because the seed is enqueued
un-normalised. -/
theorem crawl_keys_unique_amended (web : Web) (N : Nat) (u : String)
    (s : CrawlState) (h : Reaches web N (initState u) s) :
    (s.results.map Prod.fst).Nodup :=
  (reaches_inv h (initState_inv N u)).2.2.2.1

/-- Witness for C1's amended theorem on the concrete two-step run. -/
theorem crawl_keys_unique_amended_witness :
    (c1S2.results.map Prod.fst).Nodup :=
  crawl_keys_unique_amended c1Web 10 "https://ex.com" c1S2
    (Relation.ReflTransGen.tail
      (Relation.ReflTransGen.tail Relation.ReflTransGen.refl
        ⟨"https://ex.com", by decide, by decide, rfl⟩)
      ⟨"https://ex.com/", by decide, by decide, rfl⟩)

/-! ## Claim C2: page budget bound -/

/-- C2: for `max_pages = N > 0`, every reachable crawl state (in particular
every completed run) holds at most `N` PageRecords: the loop guard admits a
new URL into the visited set only below the budget, and exactly one record
is emitted per visited URL. -/
theorem crawl_budget_bound (web : Web) (N : Nat) (u : String) (s : CrawlState)
    (_hN : 0 < N) (h : Reaches web N (initState u) s) :
    s.results.length ≤ N := by
  have hInv := reaches_inv h (initState_inv N u)
  rw [hInv.2.2.2.2.2.1]
  exact hInv.2.2.2.2.2.2

/-- Witness for C2 on a one-step run with budget 1. -/
theorem crawl_budget_bound_witness :
    0 < 1 ∧
      (crawlStep c2Web 1 "https://ex.com" (initState "https://ex.com")).results.length ≤ 1 :=
  ⟨by decide,
    crawl_budget_bound c2Web 1 "https://ex.com" _ (by decide)
      (Relation.ReflTransGen.tail Relation.ReflTransGen.refl
        ⟨"https://ex.com", by decide, by decide, rfl⟩)⟩

/-! ## Claim C3: fetch-failure isolation -/

/-- C3, amended: a timeout or connection error yields exactly the failure
PageRecord — `indexable = false`, exactly one `critical` issue (`timeout` or
`fetch_error`), and every parse-derived field left at its default (no
parsing) — and the crawl loop can always keep stepping while the guard
holds, so a failure never aborts the run.  (The non-2xx clause of the
original claim is dropped: responses are processed by status-agnostic
parsing.) -/
theorem fetch_failure_isolation_amended :
    (∀ (web : Web) (url : String), web url = .timeout →
      fetch_and_process web url =
        { url := url, status_code := some 0, indexable := false,
          issues := [⟨"timeout", "critical",
            "Tiempo de espera agotado al intentar acceder a " ++ url⟩] }) ∧
    (∀ (web : Web) (url msg : String), web url = .failure msg →
      fetch_and_process web url =
        { url := url, status_code := some 0, indexable := false,
          issues := [⟨"fetch_error", "critical",
            "Error al obtener la página: " ++ msg⟩] }) ∧
    (∀ (web : Web) (N : Nat) (s : CrawlState) (url : String),
      url ∈ s.queue → s.visited.length < N → ∃ s', Step web N s s') := by
  refine ⟨?_, ?_, ?_⟩
  · intro web url h
    simp only [fetch_and_process, h]
  · intro web url msg h
    simp only [fetch_and_process, h]
  · intro web N s url hm hl
    exact ⟨crawlStep web N url s, url, hm, hl, rfl⟩

/-- Witness for C3's amended theorem: the timeout record at a concrete URL. -/
theorem fetch_failure_isolation_amended_witness :
    fetch_and_process c2Web "https://x.com" =
      { url := "https://x.com", status_code := some 0, indexable := false,
        issues := [⟨"timeout", "critical",
          "Tiempo de espera agotado al intentar acceder a " ++ "https://x.com"⟩] } :=
  fetch_failure_isolation_amended.1 c2Web "https://x.com" rfl

/-- C3, counterexample: a fetch returning the non-2xx status 500 is parsed
normally — the record keeps `indexable = true`, carries no issue at all (in
particular no critical `http_error` issue), and even scores 100. -/
theorem non2xx_parsed_normally_cex :
    (fetch_and_process c3Web "https://ex.com/").status_code = some 500 ∧
      (fetch_and_process c3Web "https://ex.com/").indexable = true ∧
      (fetch_and_process c3Web "https://ex.com/").issues = [] ∧
      (fetch_and_process c3Web "https://ex.com/").page_score = some 100 := by
  decide

/-! ## Claim C4: indexability rule -/

/-- C4, counterexample: a canonical of `https://www.ex.com/` on the page
`https://ex.com/` normalises to the page's own normalised URL, so the
specification's rule keeps the page indexable — but the code compares the
canonical as a raw string against the URL and its normalisation, and marks
the page non-indexable. -/
theorem canonical_raw_comparison_cex :
    is_indexable none (some "https://www.ex.com/") "https://ex.com/" = false ∧
      spec_is_indexable none (some "https://www.ex.com/") "https://ex.com/" = true ∧
      normalize_url "https://www.ex.com/" = normalize_url "https://ex.com/" := by
  decide

/-- C4, amended: the analysed page is non-indexable exactly when the robots
content contains `noindex` (case-insensitive), or a non-empty canonical URL
is present that differs *as a raw string* both from the page URL and from
the page URL's normalisation; the crawler stores exactly this flag on every
HTML record. -/
theorem indexable_rule_amended :
    (∀ (robots canonical : Option String) (url : String),
      is_indexable robots canonical url = false ↔
        ((truthy robots = true ∧
            containsSub "noindex".data (lowerL ((robots.getD "").data)) = true) ∨
          (truthy canonical = true ∧ canonical.getD "" ≠ url ∧
            canonical.getD "" ≠ normalize_url url))) ∧
    (∀ (web : Web) (url : String) (status : Int) (ct html : String) (soup : Soup),
      web url = .response status ct html soup →
      containsSub "text/html".data (lowerL ct.data) = true →
      (fetch_and_process web url).indexable =
        is_indexable soup.robots soup.canonical url) := by
  constructor
  · intro robots canonical url
    rw [is_indexable]
    by_cases h1 : truthy robots = true ∧
        containsSub "noindex".data (lowerL ((robots.getD "").data)) = true
    · rw [if_pos h1]
      exact ⟨fun _ => Or.inl h1, fun _ => rfl⟩
    · rw [if_neg h1]
      by_cases h2 : truthy canonical = true ∧ canonical.getD "" ≠ url ∧
          canonical.getD "" ≠ normalize_url url
      · rw [if_pos h2]
        exact ⟨fun _ => Or.inr h2, fun _ => rfl⟩
      · rw [if_neg h2]
        constructor
        · intro h
          exact absurd h (by simp)
        · intro h
          rcases h with h | h
          · exact absurd h h1
          · exact absurd h h2
  · intro web url status ct html soup hw hct
    simp only [fetch_and_process, hw, hct, Bool.not_true, Bool.false_eq_true, if_false]

/-- Witness for C4's amended theorem on a concrete HTML response. -/
theorem indexable_rule_amended_witness :
    (fetch_and_process c3Web "https://ex.com/").indexable =
      is_indexable c3Soup.robots c3Soup.canonical "https://ex.com/" :=
  indexable_rule_amended.2 c3Web "https://ex.com/" 500 "text/html" "<html></html>"
    c3Soup rfl (by decide)

/-! ## Claim C5: per-page score -/

/-- C5, amended: every record of a successfully fetched HTML page carries
`score = max(0, 100 − 5 × issueCount)`, and every score that is present lies
in [0, 100]; fetch-failure and non-HTML records carry *no* score (`None`),
rather than the formula's value. -/
theorem page_score_formula_amended :
    (∀ (web : Web) (url : String) (status : Int) (ct html : String) (soup : Soup),
      web url = .response status ct html soup →
      containsSub "text/html".data (lowerL ct.data) = true →
      (fetch_and_process web url).page_score =
        some (max 0 (100 - ((fetch_and_process web url).issues.length * 5 : Int)))) ∧
    (∀ (web : Web) (url : String) (sc : Int),
      (fetch_and_process web url).page_score = some sc → 0 ≤ sc ∧ sc ≤ 100) ∧
    (∀ (web : Web) (url : String),
      (web url = .timeout ∨ (∃ msg, web url = .failure msg) ∨
        (∃ status ct html soup, web url = .response status ct html soup ∧
          containsSub "text/html".data (lowerL ct.data) = false)) →
      (fetch_and_process web url).page_score = none) := by
  refine ⟨?_, ?_, ?_⟩
  · intro web url status ct html soup hw hct
    simp only [fetch_and_process, hw, hct, Bool.not_true, Bool.false_eq_true, if_false]
  · intro web url sc h
    rcases hweb : web url with _ | msg | ⟨status, ct, html, soup⟩
    · simp only [fetch_and_process, hweb] at h
      cases h
    · simp only [fetch_and_process, hweb] at h
      cases h
    · by_cases hct : containsSub "text/html".data (lowerL ct.data) = true
      · simp only [fetch_and_process, hweb, hct, Bool.not_true, Bool.false_eq_true,
          if_false] at h
        have h2 := Option.some.inj h
        constructor
        · rw [← h2]
          exact le_max_left _ _
        · rw [← h2]
          have : (100 : Int) -
              ((analyze_seo soup.title soup.meta_description soup.h1
                (extract_links soup.links url).1 (extract_links soup.links url).2).length
                  * 5 : Int) ≤ 100 := by
            omega
          omega
      · rw [Bool.not_eq_true] at hct
        simp only [fetch_and_process, hweb, hct, Bool.not_false, if_true] at h
        cases h
  · intro web url h
    rcases h with h | ⟨msg, h⟩ | ⟨status, ct, html, soup, h, hct⟩
    · simp only [fetch_and_process, h]
    · simp only [fetch_and_process, h]
    · simp only [fetch_and_process, h, hct, Bool.not_false, if_true]

/-- Witness for C5's amended theorem on a concrete HTML response. -/
theorem page_score_formula_amended_witness :
    (fetch_and_process c3Web "https://ex.com/").page_score =
      some (max 0 (100 -
        ((fetch_and_process c3Web "https://ex.com/").issues.length * 5 : Int))) :=
  page_score_formula_amended.1 c3Web "https://ex.com/" 500 "text/html" "<html></html>"
    c3Soup rfl (by decide)

/-- C5, counterexample: the record a crawl emits for a timed-out fetch has
one (critical) issue but score `None`, not the claimed
`100 − 5 × issueCount = 95`. -/
theorem failure_record_score_none_cex :
    (crawlStep c2Web 1 "https://ex.com" (initState "https://ex.com")).results =
      [("https://ex.com", fetch_and_process c2Web "https://ex.com")] ∧
      (fetch_and_process c2Web "https://ex.com").issues.length = 1 ∧
      (fetch_and_process c2Web "https://ex.com").page_score = none ∧
      (fetch_and_process c2Web "https://ex.com").page_score ≠
        some (max 0 (100 - (1 * 5 : Int))) := by
  decide

/-! ## Claim C6: aggregated site score -/

/-- C6, counterexample: for one indexable page of score 100 with two
critical issues, the specification's formula (penalty per *page* having a
critical issue) gives `round(100 − 30×1/1) = 70`, but the code counts
critical *issues*, giving `100 − 30×2/1 = 40`. -/
theorem site_score_counts_issues_cex :
    calculate_site_score [c6Page] = 40 ∧ spec_site_score [c6Page] = 70 := by
  with_unfolding_all decide

/-- C6, amended: for a non-empty collection with at least one indexable
page, the site score is the average score over indexable pages minus
`30 × criticalIssueCount/totalPages` minus `15 × warningIssueCount/totalPages`
(counting issue occurrences, not affected pages), rounded half-to-even and
clamped to [0, 100]; and the result always lies in [0, 100] (it is 0 for an
empty collection). -/
theorem site_score_formula_amended :
    (∀ pages : List PageData, pages ≠ [] →
      pages.filter (fun p => p.indexable) ≠ [] →
      calculate_site_score pages =
        max 0 (min 100 (pyRound (avgIndexableScore pages -
          30 * (severity_issue_count pages "critical" : Rat) / (pages.length : Rat) -
          15 * (severity_issue_count pages "warning" : Rat) / (pages.length : Rat))))) ∧
    (∀ pages : List PageData,
      0 ≤ calculate_site_score pages ∧ calculate_site_score pages ≤ 100) := by
  constructor
  · intro pages h1 h2
    simp only [calculate_site_score]
    rw [if_neg h1, if_neg h2]
    refine congrArg (fun z => max 0 (min 100 (pyRound z))) ?_
    simp only [avgIndexableScore]
    ring
  · intro pages
    simp only [calculate_site_score]
    by_cases h1 : pages = []
    · rw [if_pos h1]
      exact ⟨le_refl 0, by norm_num⟩
    · rw [if_neg h1]
      by_cases h2 : pages.filter (fun p => p.indexable) = []
      · rw [if_pos h2]
        exact ⟨le_refl 0, by norm_num⟩
      · rw [if_neg h2]
        exact ⟨le_max_left _ _, max_le (by norm_num) (min_le_left _ _)⟩

/-- Witness for C6's amended theorem on the concrete one-page collection. -/
theorem site_score_formula_amended_witness :
    calculate_site_score [c6Page] =
      max 0 (min 100 (pyRound (avgIndexableScore [c6Page] -
        30 * (severity_issue_count [c6Page] "critical" : Rat) / ([c6Page].length : Rat) -
        15 * (severity_issue_count [c6Page] "warning" : Rat) / ([c6Page].length : Rat)))) :=
  site_score_formula_amended.1 [c6Page] (by decide) (by decide)

/-! ## Claim C9: monitoring content-change threshold -/

/-- C9: with a positive baseline, a content change is recorded exactly when
the fresh word count deviates from the baseline by strictly more than 10 %,
and the recorded value is the percentage delta rounded to two decimals. -/
theorem content_change_threshold (b fresh : Nat) (hb : 0 < b) :
    ((detect_content_change (some b) fresh ≠ none) ↔
      10 * ((fresh : Int) - (b : Int)).natAbs > b) ∧
    detect_content_change (some b) fresh =
      (if 10 * ((fresh : Int) - (b : Int)).natAbs > b then
        some (round2 (((fresh : Rat) - (b : Rat)) / (b : Rat) * 100))
      else none) := by
  have hcond : ((((fresh : Int) - (b : Int)).natAbs : Rat) > (b : Rat) * (1/10)) ↔
      10 * ((fresh : Int) - (b : Int)).natAbs > b := by
    rw [gt_iff_lt, gt_iff_lt,
      show (b : Rat) * (1/10) = (b : Rat)/10 by ring,
      div_lt_iff₀ (by norm_num : (0 : Rat) < 10), mul_comm]
    constructor
    · intro h
      exact_mod_cast h
    · intro h
      exact_mod_cast h
  have hb' : b ≠ 0 := Nat.pos_iff_ne_zero.mp hb
  by_cases hc : 10 * ((fresh : Int) - (b : Int)).natAbs > b
  · have := hcond.mpr hc
    constructor
    · simp only [detect_content_change, if_pos (And.intro hb' this)]
      simp [hc]
    · simp only [detect_content_change, if_pos (And.intro hb' this), if_pos hc]
  · have hnot : ¬(b ≠ 0 ∧
        ((((fresh : Int) - (b : Int)).natAbs : Rat) > (b : Rat) * (1/10))) := by
      intro h
      exact hc (hcond.mp h.2)
    constructor
    · simp only [detect_content_change, if_neg hnot]
      simp [hc]
    · simp only [detect_content_change, if_neg hnot, if_neg hc]

/-- Witness for C9 at the spec's worked examples: baseline 1000 with fresh
800 (20 % drop, recorded as −20.0) and fresh 950 (5 % drop, not recorded). -/
theorem content_change_threshold_witness :
    0 < 1000 ∧
      ((detect_content_change (some 1000) 800 ≠ none) ↔
        10 * ((800 : Int) - (1000 : Int)).natAbs > 1000) ∧
      detect_content_change (some 1000) 800 = some (-20) ∧
      detect_content_change (some 1000) 950 = none :=
  ⟨by decide, (content_change_threshold 1000 800 (by decide)).1,
    by with_unfolding_all decide, by with_unfolding_all decide⟩

/-! ## Claim C10: all-non-indexable collections -/

/-- C10: a non-empty collection in which no page is indexable scores 0 — the
code returns before computing the average, so no division by zero arises. -/
theorem site_score_zero_when_no_indexable (pages : List PageData)
    (h1 : pages ≠ []) (h2 : ∀ p ∈ pages, p.indexable = false) :
    calculate_site_score pages = 0 := by
  have hf : pages.filter (fun p => p.indexable) = [] := by
    rw [List.filter_eq_nil_iff]
    intro p hp
    simp [h2 p hp]
  simp only [calculate_site_score]
  rw [if_neg h1, if_pos hf]

/-- Witness for C10 on a concrete one-page collection. -/
theorem site_score_zero_when_no_indexable_witness :
    calculate_site_score [c10Page] = 0 :=
  site_score_zero_when_no_indexable [c10Page] (by decide) (by decide)

/-! ## Claim C7: idempotence of URL normalisation -/

/-- C7, counterexample: normalisation strips only one leading `www.` and only
one trailing slash, so it is not idempotent: `https://www.www.example.com/`
normalises to `https://www.example.com/`, which normalises further to
`https://example.com/`.  A second failure mode comes from `urlparse`'s
`;params` splitting: `https://ex.com/a;b/` normalises to
`https://ex.com/a;b` (the `;b` sits in a non-final segment, the trailing
slash is stripped), and a second application — where `;b` is now in the
final segment — gives `https://ex.com/a`. -/
theorem normalize_not_idempotent_cex :
    normalize_url (normalize_url "https://www.www.example.com/") ≠
        normalize_url "https://www.www.example.com/" ∧
      normalize_url "https://www.www.example.com/" = "https://www.example.com/" ∧
      normalize_url (normalize_url "https://www.www.example.com/") =
        "https://example.com/" ∧
      normalize_url "https://ex.com/a;b/" = "https://ex.com/a;b" ∧
      normalize_url (normalize_url "https://ex.com/a;b/") = "https://ex.com/a" := by
  decide

/-- C7, amended: normalisation is idempotent on every URL whose normal form
has a host that does not again begin with `www.`, a path that does not again
end with a slash (the root path `/` aside), and no `;` in the final path
segment (which a second `urlparse` would split off as `params`).  It is not
idempotent in general: repeated `www.` prefixes, repeated trailing slashes,
and `;` segments exposed by slash-stripping all change under a second
application. -/
theorem normalize_idempotent_amended (u : String)
    (hw : prefixB "www.".data (netlocOfData (normalize_url u).data) = false)
    (hp : splitParams (pathOfData (normalize_url u).data) =
      pathOfData (normalize_url u).data)
    (hs : pathOfData (normalize_url u).data = ['/'] ∨
      (pathOfData (normalize_url u).data).getLast? ≠ some '/') :
    normalize_url (normalize_url u) = normalize_url u := by
  show String.mk (normData (normData u.data)) = String.mk (normData u.data)
  exact congrArg String.mk (normData_idem u.data hw hp hs)

/-- Witness for C7's amended theorem on a concrete URL (one that even keeps
a `;` in a non-final path segment). -/
theorem normalize_idempotent_amended_witness :
    prefixB "www.".data
        (netlocOfData (normalize_url "https://a.com/x;y/b").data) = false ∧
      splitParams (pathOfData (normalize_url "https://a.com/x;y/b").data) =
        pathOfData (normalize_url "https://a.com/x;y/b").data ∧
      normalize_url (normalize_url "https://a.com/x;y/b") =
        normalize_url "https://a.com/x;y/b" :=
  ⟨by decide, by decide,
    normalize_idempotent_amended "https://a.com/x;y/b" (by decide) (by decide)
      (by decide)⟩

/-! ## Claim C8: component behaviour of the normaliser -/

/-- C8, counterexample: the code does not remove default ports
(`https://example.com:443/` keeps `:443`) and does not reject non-`http(s)`
schemes (an `ftp://` URL simply gets `https://` prepended).  In addition
`urlparse` splits `;params` off the final path segment and the rebuild drops
them. -/
theorem normalize_keeps_default_port_cex :
    normalize_url "https://example.com:443/" = "https://example.com:443/" ∧
      normalize_url "https://example.com:443/" ≠ "https://example.com/" ∧
      normalize_url "ftp://x.com" = "https://ftp://x.com" ∧
      normalize_url "https://ex.com/a;b?q#f" = "https://ex.com/a" := by
  decide

/-- C8, amended: on a scheme-qualified URL, normalisation lower-cases the
host, strips one leading `www.`, drops the query string and fragment, splits
`;params` off the final path segment (as `urlparse` does for `http`/`https`)
and drops them, and collapses the remaining path (one trailing slash
removed, empty path to `/`); an input without an `http://`/`https://` prefix
is processed as if `https://` were prepended; and normalisation is a pure
deterministic function.  Default ports are *kept* (part of the host) and no
scheme is rejected. -/
theorem normalize_components_amended :
    (∀ host path q f : List Char,
      (∀ c ∈ host, isStop c = false) →
      (path = [] ∨ ∃ t, path = '/' :: t) →
      (∀ c ∈ path, isPStop c = false) →
      normalize_url (String.mk ("https://".data ++ host ++ path ++
          '?' :: q ++ '#' :: f)) =
        String.mk ("https://".data ++ hostNorm host ++ pathNorm (splitParams path))) ∧
    (∀ u : String, u.data ≠ [] → startsHttpL u.data = false →
      normalize_url u = normalize_url (String.mk ("https://".data ++ u.data))) ∧
    (∀ u v : String, u = v → normalize_url u = normalize_url v) := by
  refine ⟨?_, ?_, ?_⟩
  · intro host path q f hh hp hp2
    have e : "https://".data ++ host ++ path ++ '?' :: q ++ '#' :: f =
        "https://".data ++ (host ++ (path ++ ('?' :: (q ++ '#' :: f)))) := by
      simp [List.append_assoc]
    rw [e]
    show String.mk (normData ("https://".data ++
        (host ++ (path ++ ('?' :: (q ++ '#' :: f)))))) =
      String.mk ("https://".data ++ hostNorm host ++ pathNorm (splitParams path))
    refine congrArg String.mk ?_
    rw [normData_https,
      normTail_split _ _ _ _ hh hp hp2 (Or.inr (Or.inl ⟨_, rfl⟩))]
    rfl
  · intro u h0 h
    show String.mk (normData u.data) =
      String.mk (normData ("https://".data ++ u.data))
    refine congrArg String.mk ?_
    rw [normData_noscheme u.data h0 h, normData_https]
  · intro u v e
    rw [e]

/-- Witness for C8's amended theorem: upper-case `www` host, `;params` in
the final path segment, query and fragment. -/
theorem normalize_components_amended_witness :
    normalize_url (String.mk ("https://".data ++ "WWW.Example.COM".data ++
        "/p;x".data ++ '?' :: "q".data ++ '#' :: "y".data)) =
      String.mk ("https://".data ++ hostNorm "WWW.Example.COM".data ++
        pathNorm (splitParams "/p;x".data)) ∧
    String.mk ("https://".data ++ hostNorm "WWW.Example.COM".data ++
        pathNorm (splitParams "/p;x".data)) = "https://example.com/p" :=
  ⟨normalize_components_amended.1 "WWW.Example.COM".data "/p;x".data "q".data "y".data
      (by decide) (Or.inr ⟨['p', ';', 'x'], rfl⟩) (by decide),
    by decide⟩

end SiteChecker
